import Mathlib

/-
Verification of the interactive SFTP command shell (sftp.py).

The development shallowly embeds the program's pure logic:
  * `parse_args`      — FTPClient._parse_args, the quote/escape tokenizer,
                        modelled as a fold of `scanStep` over the input characters;
  * `specTokenize`    — the specification's reference character-scan machine
                        (used only for the refinement claim about the tokenizer);
  * `CommandCompleter`/`get_completions` — the completion cache;
  * `ls_sort`/`lsRun` — the directory-listing sort and rendering;
  * `dispatchLine`/`start_interactive` — the session loop, modelled as a
                        step function over a list of operator events, with
                        externally observable actions recorded as `Effect`s.
Strings are handled at the `List Char` level (Python iterates characters).
-/

/-- Single-quote character, written via its code point. -/
def squote : Char := Char.ofNat 39

/-- Errors raised by FTPClient._parse_args (`ValueError` in the source),
carrying the 1-based index reported in the message. -/
inductive TokErr where
  | unterminatedQuote (index : Nat)
  | danglingEscape (index : Nat)
deriving DecidableEq, Repr

/-- Scanner state of FTPClient._parse_args: the emitted tokens (`parsed`),
the in-progress buffer (`arg`), the `escaping` flag, the active `quote`
character and the running character `index`. -/
structure ScanState where
  parsed : List (List Char)
  arg : List Char
  escaping : Bool
  quote : Option Char
  index : Nat
deriving DecidableEq, Repr

/-- Initial scanner state (`parsed = []`, `arg = ''`, `escaping = False`,
`quote = None`, `index = 0`). -/
def initScan : ScanState := ⟨[], [], false, none, 0⟩

/-- One iteration of the `for char in list(args)` loop of
FTPClient._parse_args, in the exact branch order of the source. -/
def scanStep (st : ScanState) (c : Char) : ScanState :=
  let st := { st with index := st.index + 1 }
  if st.escaping then { st with arg := st.arg ++ [c], escaping := false }
  else if c = '\\' then { st with escaping := true }
  else if st.quote = some c then { st with quote := none }
  else if st.quote = none ∧ (c = '"' ∨ c = squote) then { st with quote := some c }
  else if st.quote = none ∧ c = ' ' then
    { st with parsed := st.parsed ++ (if st.arg = [] then [] else [st.arg]), arg := [] }
  else { st with arg := st.arg ++ [c] }

/-- Scanner state after consuming the whole input. -/
def scanChars (s : List Char) : ScanState := s.foldl scanStep initScan

/-- End-of-input handling of FTPClient._parse_args: unterminated quote is
checked first, then a dangling escape, then the final buffer is flushed. -/
def finishScan (st : ScanState) : Except TokErr (List (List Char)) :=
  if st.quote.isSome then .error (.unterminatedQuote st.index)
  else if st.escaping then .error (.danglingEscape st.index)
  else .ok (st.parsed ++ (if st.arg = [] then [] else [st.arg]))

/-- FTPClient._parse_args on a character list. -/
def parse_args (s : List Char) : Except TokErr (List (List Char)) :=
  finishScan (scanChars s)

/-- FTPClient._parse_args on a `String`, tokens returned as `String`s. -/
def parse_args_str (s : String) : Except TokErr (List String) :=
  (parse_args s.data).map (List.map String.mk)

instance {ε α : Type} [DecidableEq ε] [DecidableEq α] : DecidableEq (Except ε α) := fun x y =>
  match x, y with
  | .ok a, .ok b => if h : a = b then .isTrue (by rw [h]) else .isFalse (by simp [h])
  | .error a, .error b => if h : a = b then .isTrue (by rw [h]) else .isFalse (by simp [h])
  | .ok _, .error _ => .isFalse (by simp)
  | .error _, .ok _ => .isFalse (by simp)

/-! ### Reference machine of the specification (for the refinement claim) -/
/-- Modelled from the spec: the "active quote character (none, single, or
double)" of the reference scan machine. -/
inductive QuoteKind where
  | noQ
  | singleQ
  | doubleQ
deriving DecidableEq, Repr

/-- Character represented by an active-quote state. -/
def quoteCharOf : QuoteKind → Option Char
  | .noQ => none
  | .singleQ => some squote
  | .doubleQ => some '"'

/-- Modelled from the spec: the three pieces of scanning state (in-progress
token buffer, escaping flag, active quote character) plus the tokens
emitted so far. -/
structure SpecState where
  toks : List (List Char)
  buffer : List Char
  escFlag : Bool
  quoteK : QuoteKind
deriving DecidableEq, Repr

/-- Modelled from the spec: one scan step, applying rules 1-6 in the
specified priority order. -/
def specStep (st : SpecState) (c : Char) : SpecState :=
  if st.escFlag then { st with buffer := st.buffer ++ [c], escFlag := false }
  else if c = '\\' then { st with escFlag := true }
  else if quoteCharOf st.quoteK = some c then { st with quoteK := .noQ }
  else if st.quoteK = .noQ ∧ (c = '"' ∨ c = squote) then
    { st with quoteK := if c = '"' then .doubleQ else .singleQ }
  else if st.quoteK = .noQ ∧ c = ' ' then
    { st with toks := st.toks ++ (if st.buffer = [] then [] else [st.buffer]), buffer := [] }
  else { st with buffer := st.buffer ++ [c] }

/-- Errors of the reference machine (the spec names no index). -/
inductive SpecErr where
  | unterminatedQuote
  | danglingEscape
deriving DecidableEq, Repr

/-- Error kind of a source tokenizer error, forgetting the index. -/
def errKind : TokErr → SpecErr
  | .unterminatedQuote _ => .unterminatedQuote
  | .danglingEscape _ => .danglingEscape

/-- Modelled from the spec: end-of-input handling of the reference machine. -/
def specFinish (st : SpecState) : Except SpecErr (List (List Char)) :=
  if st.quoteK ≠ .noQ then .error .unterminatedQuote
  else if st.escFlag then .error .danglingEscape
  else .ok (st.toks ++ (if st.buffer = [] then [] else [st.buffer]))

/-- Modelled from the spec: the reference tokenizer. -/
def specTokenize (s : List Char) : Except SpecErr (List (List Char)) :=
  specFinish (s.foldl specStep ⟨[], [], false, .noQ⟩)

/-- Correspondence between a reference-machine state and a source scanner
state: same tokens, same buffer, same escaping flag, and the active quote
states denote the same character. -/
def stRel (a : SpecState) (b : ScanState) : Prop :=
  a.toks = b.parsed ∧ a.buffer = b.arg ∧ a.escFlag = b.escaping ∧
    quoteCharOf a.quoteK = b.quote

/-! ### Round-trip property of the tokenizer on quote/escape-free input -/
/-- Space-split with an explicit in-progress buffer `a`: the tokens the
scanner emits from input `s` when the current buffer holds `a`. -/
def splitAcc (a : List Char) : List Char → List (List Char)
  | [] => if a = [] then [] else [a]
  | c :: rest =>
    if c = ' ' then (if a = [] then [] else [a]) ++ splitAcc [] rest
    else splitAcc (a ++ [c]) rest

/-- Longest space-free removal from the front. -/
def dropSpaces : List Char → List Char
  | [] => []
  | c :: rest => if c = ' ' then dropSpaces rest else c :: rest

/-- Collapse of the remaining input, given whether a separating space is
pending (a completed word precedes, so one space must be emitted before the
next word character). -/
def collapseAux : List Char → Bool → List Char
  | [], _ => []
  | c :: rest, pending =>
    if c = ' ' then collapseAux rest true
    else if pending then ' ' :: c :: collapseAux rest false
    else c :: collapseAux rest false

/-- Whitespace-collapsed form of an input: leading spaces removed, runs of
spaces collapsed to one, trailing spaces removed. -/
def collapseChars (s : List Char) : List Char := collapseAux (dropSpaces s) false

/-- Re-join a token list with single spaces. -/
def joinSpaces : List (List Char) → List Char
  | [] => []
  | [w] => w
  | w :: ws => w ++ ' ' :: joinSpaces ws

/-- Input free of the tokenizer's special characters: no escape character
and no quote character of either kind. -/
def noSpecials (s : List Char) : Prop := ∀ c ∈ s, c ≠ '\\' ∧ c ≠ '"' ∧ c ≠ squote

instance (s : List Char) : Decidable (noSpecials s) := by
  unfold noSpecials
  infer_instance

/-! ### Completion engine (CommandCompleter) -/
/-- Python str.split(' ') with an accumulator: split on every space,
keeping empty pieces (so `a  b` gives three pieces and the empty line
gives one empty piece). -/
def pySplitAux (cur : List Char) : List Char → List (List Char)
  | [] => [cur]
  | c :: rest => if c = ' ' then cur :: pySplitAux [] rest else pySplitAux (cur ++ [c]) rest

/-- Python document.current_line.split(' '). -/
def pySplit (s : List Char) : List (List Char) := pySplitAux [] s

/-- Substring containment (the Python `in` operator on strings). -/
def containsSub (hay needle : List Char) : Bool :=
  hay.tails.any (fun t => needle.isPrefixOf t)

/-- Cache state of a CommandCompleter instance: `_last_word_count`
(initialized to the sentinel -1) and `_word_cache`. -/
structure CommandCompleter where
  last_word_count : Int
  word_cache : List (List Char)
deriving DecidableEq, Repr

/-- State of a freshly constructed CommandCompleter. -/
def initCompleter : CommandCompleter := ⟨-1, []⟩

/-- One completion request: the current line, the word before the cursor,
and the candidate list the word-source function would return if it were
invoked on this request. -/
structure CompletionRequest where
  line : List Char
  wordBeforeCursor : List Char
  genResult : List (List Char)

/-- CommandCompleter.get_completions: split the current line on raw spaces;
if the piece count differs from `_last_word_count`, refresh `_word_cache`
from the word source and store the new count; then yield every cached
candidate whose lowercased form contains the lowercased word before the
cursor, with a replacement span deleting exactly that word. Returns the
updated completer state, whether the word source was invoked, and the
yielded completions (candidate text with its start position). -/
def get_completions (c : CommandCompleter) (r : CompletionRequest) :
    CommandCompleter × Bool × List (List Char × Int) :=
  let lineWords := pySplit r.line
  let upd :=
    if (lineWords.length : Int) ≠ c.last_word_count then
      (⟨(lineWords.length : Int), r.genResult⟩, true)
    else (c, false)
  let wbc := r.wordBeforeCursor.map Char.toLower
  (upd.1, upd.2,
    (upd.1.word_cache.filter (fun a => containsSub (a.map Char.toLower) wbc)).map
      (fun a => (a, -(wbc.length : Int))))

/-! ### Directory listing (FTPClient.ls and FTPClient._ls_sort) -/
/-- Remote directory entry as FTPClient.ls sees it: the filename and the
raw st_mode attribute, which paramiko may leave undefined (None). -/
structure Entry where
  filename : String
  st_mode : Option Nat
deriving DecidableEq, Repr

/-- stat.S_IFMT mask (0o170000). -/
def S_IFMT : Nat := 0xF000

/-- stat.S_ISDIR (0o040000 after masking). -/
def S_ISDIR (m : Nat) : Bool := m &&& S_IFMT = 0x4000

/-- stat.S_ISREG (0o100000 after masking). -/
def S_ISREG (m : Nat) : Bool := m &&& S_IFMT = 0x8000

/-- FTPClient._ls_sort applied to an entry whose raw st_mode value is `m`:
directories rank 1, regular files 2, everything else 3, with the filename
as tiebreaker. -/
def ls_sort (m : Nat) (name : String) : Nat × String :=
  if S_ISDIR m then (1, name) else if S_ISREG m then (2, name) else (3, name)

/-- Marker choice in the body of FTPClient.ls; unlike the sort key it
defaults a missing st_mode to 0 (`entry.st_mode or 0`). -/
def lsMarker (e : Entry) : String :=
  if S_ISDIR (e.st_mode.getD 0) then "📁"
  else if S_ISREG (e.st_mode.getD 0) then "📄"
  else "?"

/-- Case-sensitive code-point lexicographic comparison of strings as
character lists (Python str comparison). -/
def charListLe : List Char → List Char → Bool
  | [], _ => true
  | _ :: _, [] => false
  | a :: as, b :: bs =>
    if a < b then true
    else if a = b then charListLe as bs
    else false

/-- Ascending order on Python key tuples (int, str): lexicographic with
case-sensitive code-point string comparison, as Python tuple `<` does. -/
def keyLe (a b : Nat × String) : Prop :=
  a.1 < b.1 ∨ (a.1 = b.1 ∧ charListLe a.2.data b.2.data = true)

instance : DecidableRel keyLe := fun a b => by
  unfold keyLe
  infer_instance

/-- Order on key-decorated entries. -/
def entryKeyLe (a b : Entry × (Nat × String)) : Prop := keyLe a.2 b.2

instance : DecidableRel entryKeyLe := fun a b => by
  unfold entryKeyLe
  infer_instance

/-- Key computation of `sorted(entries, key=self._ls_sort)`: CPython
decorates every entry with its key (left to right) before any comparison
or output; an entry whose st_mode is None makes `_ls_sort` raise
(None has no `&`), modelled as `none`. -/
def decorate : List Entry → Option (List (Entry × (Nat × String)))
  | [] => some []
  | e :: rest =>
    match e.st_mode with
    | none => none
    | some m => (decorate rest).map (fun l => (e, ls_sort m e.filename) :: l)

/-- FTPClient.ls: sort all entries by the `_ls_sort` key (raising before
anything is printed if any key computation raises), then render each entry
as its marker followed by a space and the filename. -/
def lsRun (entries : List Entry) : Except Unit (List String) :=
  match decorate entries with
  | none => .error ()
  | some dec =>
    .ok ((dec.insertionSort entryKeyLe).map (fun p => lsMarker p.1 ++ " " ++ p.1.filename))

/-! ### Session loop (FTPClient.start_interactive) -/
/-- Externally observable actions of one session run. -/
inductive Effect where
  | printed (msg : List Char)
  | lsInvoke
  | chdirInvoke (path : List Char)
  | downloadInvoke (fname savePath : List Char)
  | closeInvoke
deriving DecidableEq, Repr

/-- Mutable state of FTPClient inside start_interactive: the `_closed`
flag, `_pwd`, and the Python local variable `fname`, which persists across
loop iterations and is undefined (None here) before the first two-argument
`get`/`download` assigns it. -/
structure ClientState where
  closed : Bool
  pwd : List Char
  fname : Option (List Char)
deriving DecidableEq, Repr

/-- Client state at the top of start_interactive. -/
def initClient : ClientState := ⟨false, [], none⟩

/-- Exceptions the loop body can raise that its except clause (which names
only KeyboardInterrupt) does not catch. -/
inductive ExnKind where
  | valueError (e : TokErr)
  | nameError
deriving DecidableEq, Repr

/-- Result of dispatching one input line. -/
inductive DispatchResult where
  | ok (st : ClientState) (effects : List Effect)
  | raised (effects : List Effect) (exn : ExnKind)
deriving DecidableEq, Repr

/-- Usage message printed for a get/download with a bad argument count. -/
def usageMsg : List Char :=
  "invalid command format, use \"get <file> [save_location]\"".data

/-- Argument computation of the loop body:
`self._parse_args(' '.join(line[1:])) if len(line) > 1 else []`. -/
def dispatchArgs (raw : List Char) : Except TokErr (List (List Char)) :=
  if (pySplit raw).length > 1 then parse_args (joinSpaces ((pySplit raw).drop 1))
  else .ok []

/-- Dispatch of one input line `raw` (steps 3-4 of the loop body, after the
pwd refresh and the prompt). `chdirResult` is the outcome the capability's
chdir would give if called (`none` = success, `some msg` = IOError whose
message `_execute_safely` prints). A tokenizer ValueError, or the NameError
from evaluating the stale `fname` in a one-argument get before any
assignment to it, is raised (the loop does not catch either). -/
def dispatchLine (st : ClientState) (raw : List Char) (chdirResult : Option (List Char)) :
    DispatchResult :=
  let cmd := (pySplit raw).headD []
  match dispatchArgs raw with
  | .error e => .raised [] (.valueError e)
  | .ok args =>
    if cmd = "q".data ∨ cmd = "quit".data ∨ cmd = "exit".data then
      .ok { st with closed := true } []
    else if cmd = "ls".data then .ok st [.lsInvoke]
    else if cmd = "cd".data then
      match args with
      | [] => .ok st []
      | a :: _ =>
        let path := st.pwd ++ '/' :: a
        match chdirResult with
        | none => .ok st [.chdirInvoke path]
        | some msg => .ok st [.chdirInvoke path, .printed msg]
    else if cmd = "get".data ∨ cmd = "download".data then
      match args with
      | [f, s] => .ok { st with fname := some f } [.downloadInvoke f s]
      | [f] =>
        match st.fname with
        | none => .raised [] .nameError
        | some prev => .ok { st with fname := some f } [.downloadInvoke f ("./".data ++ prev)]
      | _ => .ok st [.printed usageMsg]
    else .ok st [.printed "Unknown command".data]

/-- Effects a dispatch produced (whether it returned or raised). -/
def dispatchEffects : DispatchResult → List Effect
  | .ok _ effs => effs
  | .raised effs _ => effs

/-- One scripted operator interaction per loop iteration: a typed line
(with that iteration's getcwd result and the chdir outcome), or a
KeyboardInterrupt raised at the blocking prompt, or a KeyboardInterrupt
raised during the body after `k` of the dispatch's effects happened. -/
inductive LoopEvent where
  | line (cwd : Option (List Char)) (raw : List Char) (chdirResult : Option (List Char))
  | interruptAtPrompt (cwd : Option (List Char))
  | interruptInBody (cwd : Option (List Char)) (raw : List Char)
      (chdirResult : Option (List Char)) (k : Nat)
deriving DecidableEq, Repr

/-- Terminal status of a start_interactive run. -/
inductive Disposition where
  | finished
  | crashed (exn : ExnKind)
  | outOfEvents
deriving DecidableEq, Repr

/-- FTPClient.start_interactive over scripted events: while `_closed` is
false, refresh `_pwd` from getcwd (empty string on None), read a line, and
dispatch it. KeyboardInterrupt anywhere in the body is caught, sets
`_closed`, and breaks; the `self._client.close()` after the loop then runs
(`closeInvoke`). An uncaught ValueError/NameError propagates out of
start_interactive, so close never runs on that path. -/
def start_interactive (st : ClientState) : List LoopEvent → List Effect × Disposition
  | [] => if st.closed then ([.closeInvoke], .finished) else ([], .outOfEvents)
  | ev :: rest =>
    if st.closed then ([.closeInvoke], .finished)
    else
      match ev with
      | .interruptAtPrompt _ => ([.closeInvoke], .finished)
      | .interruptInBody cwd raw chdirResult k =>
        let st2 := { st with pwd := cwd.getD [] }
        ((dispatchEffects (dispatchLine st2 raw chdirResult)).take k ++ [.closeInvoke],
          .finished)
      | .line cwd raw chdirResult =>
        let st2 := { st with pwd := cwd.getD [] }
        match dispatchLine st2 raw chdirResult with
        | .raised effs e => (effs, .crashed e)
        | .ok st3 effs =>
          let next := start_interactive st3 rest
          (effs ++ next.1, next.2)

/-! ### Theorems -/

theorem quoteCharOf_eq_none {q : QuoteKind} : quoteCharOf q = none ↔ q = .noQ := by
  cases q <;> simp [quoteCharOf]

theorem stRel_step {a : SpecState} {b : ScanState} (h : stRel a b) (c : Char) :
    stRel (specStep a c) (scanStep b c) := by
  obtain ⟨tk, buf, ef, qk⟩ := a
  obtain ⟨p, arg, esc, q, i⟩ := b
  obtain ⟨h1, h2, h3, h4⟩ := h
  simp only at h1 h2 h3 h4
  subst h1; subst h2; subst h3; subst h4
  cases qk <;>
    simp only [specStep, scanStep, stRel, quoteCharOf] <;>
    split_ifs <;>
    simp_all [quoteCharOf]

theorem stRel_fold {a : SpecState} {b : ScanState} (h : stRel a b) (s : List Char) :
    stRel (s.foldl specStep a) (s.foldl scanStep b) := by
  induction s generalizing a b with
  | nil => exact h
  | cons c rest ih => exact ih (stRel_step h c)

theorem stRel_finish {a : SpecState} {b : ScanState} (h : stRel a b) :
    specFinish a = (finishScan b).mapError errKind := by
  obtain ⟨h1, h2, h3, h4⟩ := h
  unfold specFinish finishScan
  by_cases hq : b.quote.isSome
  · have : a.quoteK ≠ .noQ := by
      intro hx
      rw [hx, quoteCharOf] at h4
      rw [← h4] at hq
      simp at hq
    simp [hq, this, Except.mapError, errKind]
  · have : a.quoteK = .noQ := by
      rw [← quoteCharOf_eq_none, h4]
      simpa using hq
    by_cases he : b.escaping
    · simp [hq, this, h3, he, Except.mapError, errKind]
    · simp [hq, this, h3, he, h1, h2, Except.mapError]

/-- C4: for every input string, the output of FTPClient._parse_args equals
(up to the error index, which the spec machine does not carry) the output of
the specification's reference character-scan machine; moreover a quote can
open and close mid-token (`ab"c d"e` gives `abc de`), escape works both
outside quotes (`a\ b` gives `a b`) and inside quotes (`"a\"b"` gives
`a"b`), and the empty input yields the empty token sequence. -/
theorem C4_tokenizer_matches_spec_machine (s : List Char) :
    specTokenize s = (parse_args s).mapError errKind ∧
    parse_args_str "ab\"c d\"e" = .ok ["abc de"] ∧
    parse_args_str "a\\ b" = .ok ["a b"] ∧
    parse_args_str "\"a\\\"b\"" = .ok ["a\"b"] ∧
    parse_args_str "" = .ok [] := by
  refine ⟨?_, by decide, by decide, by decide, by decide⟩
  exact stRel_finish (stRel_fold ⟨rfl, rfl, rfl, rfl⟩ s)

/-- C5 counterexample: on the input consisting of a double quote followed by
a backslash, the escaping flag is still set at end of input, yet the
tokenizer does not fail with DanglingEscape — it fails with
UnterminatedQuote, because the quote check comes first. This refutes the
claim that the tokenizer "fails with a DanglingEscape error exactly when
the escaping flag is still set". -/
theorem C5_cex_escaping_set_but_unterminated_quote_raised :
    (scanChars ['"', '\\']).escaping = true ∧
    parse_args ['"', '\\'] = .error (.unterminatedQuote 2) ∧
    ∀ i, parse_args ['"', '\\'] ≠ .error (.danglingEscape i) := by
  refine ⟨by decide, by decide, ?_⟩
  intro i h
  simp [parse_args, finishScan, show (scanChars ['"', '\\']).quote = some '"' from by decide] at h

/-- C5 (amended): at end of input the tokenizer fails with UnterminatedQuote
exactly when a quote is still open; it fails with DanglingEscape exactly
when the escaping flag is still set AND no quote is open; otherwise it
appends any non-empty remaining buffer as a final token. -/
theorem C5_end_of_input_amended (s : List Char) :
    ((∃ i, parse_args s = .error (.unterminatedQuote i)) ↔ (scanChars s).quote ≠ none) ∧
    ((∃ i, parse_args s = .error (.danglingEscape i)) ↔
      ((scanChars s).escaping = true ∧ (scanChars s).quote = none)) ∧
    ((scanChars s).quote = none → (scanChars s).escaping = false →
      parse_args s = .ok ((scanChars s).parsed ++
        (if (scanChars s).arg = [] then [] else [(scanChars s).arg]))) := by
  unfold parse_args finishScan
  rcases hq : (scanChars s).quote with _ | qc
  · by_cases he : (scanChars s).escaping = true <;> simp [hq, he]
  · simp [hq]

/-- Witness for C5 (amended): the input `a b` ends with no open quote and no
pending escape, and the tokenizer returns the flushed buffer as final token. -/
theorem C5_end_of_input_amended_witness :
    parse_args "a b".data = .ok ((scanChars "a b".data).parsed ++
      (if (scanChars "a b".data).arg = [] then [] else [(scanChars "a b".data).arg])) :=
  (C5_end_of_input_amended "a b".data).2.2 (by decide) (by decide)

theorem scan_noSpecials (s : List Char) (hs : noSpecials s) :
    ∀ (p : List (List Char)) (a : List Char) (i : Nat),
      finishScan (s.foldl scanStep ⟨p, a, false, none, i⟩) = .ok (p ++ splitAcc a s) := by
  induction s with
  | nil =>
    intro p a i
    simp [finishScan, splitAcc]
  | cons c rest ih =>
    intro p a i
    obtain ⟨hbs, hdq, hsq⟩ := hs c (by simp)
    have hrest : noSpecials rest := fun d hd => hs d (by simp [hd])
    have hnq : ¬ (c = '"' ∨ c = squote) := by
      rintro (h | h)
      · exact hdq h
      · exact hsq h
    by_cases hsp : c = ' '
    · subst hsp
      have hstep : scanStep ⟨p, a, false, none, i⟩ ' ' =
          ⟨p ++ (if a = [] then [] else [a]), [], false, none, i + 1⟩ := by
        simp [scanStep, hbs, hdq, hsq]
      rw [List.foldl_cons, hstep, ih hrest]
      simp [splitAcc, List.append_assoc]
    · have hstep : scanStep ⟨p, a, false, none, i⟩ c = ⟨p, a ++ [c], false, none, i + 1⟩ := by
        simp [scanStep, hbs, hnq, hsp]
      rw [List.foldl_cons, hstep, ih hrest]
      simp [splitAcc, hsp]

theorem parse_args_noSpecials (s : List Char) (hs : noSpecials s) :
    parse_args s = .ok (splitAcc [] s) := by
  have := scan_noSpecials s hs [] [] 0
  simpa [parse_args, scanChars, initScan] using this

theorem splitAcc_ne_nil (r : List Char) : ∀ a : List Char, a ≠ [] → splitAcc a r ≠ [] := by
  induction r with
  | nil =>
    intro a ha
    simp [splitAcc, ha]
  | cons c rest ih =>
    intro a ha
    by_cases h : c = ' '
    · simp [splitAcc, h, ha]
    · simp only [splitAcc, h, if_false]
      exact ih (a ++ [c]) (by simp)

theorem splitAcc_nil_iff (r : List Char) : splitAcc [] r = [] ↔ dropSpaces r = [] := by
  induction r with
  | nil => simp [splitAcc, dropSpaces]
  | cons c rest ih =>
    by_cases h : c = ' '
    · simp [splitAcc, dropSpaces, h, ih]
    · simp only [splitAcc, dropSpaces, h, if_false, List.nil_append]
      constructor
      · intro hx
        exact absurd hx (splitAcc_ne_nil rest [c] (by simp))
      · intro hx
        exact absurd hx (by simp)

theorem joinSpaces_cons (w : List Char) (L : List (List Char)) :
    joinSpaces (w :: L) = w ++ (if L = [] then [] else ' ' :: joinSpaces L) := by
  cases L <;> simp [joinSpaces]

theorem collapseAux_true (rest : List Char) :
    collapseAux rest true =
      (if dropSpaces rest = [] then [] else ' ' :: collapseAux (dropSpaces rest) false) := by
  induction rest with
  | nil => simp [collapseAux, dropSpaces]
  | cons c r ih =>
    by_cases h : c = ' '
    · subst h
      simp only [collapseAux, dropSpaces, if_pos rfl]
      exact ih
    · have hl : collapseAux (c :: r) true = ' ' :: c :: collapseAux r false := by
        simp [collapseAux, h]
      have hd : dropSpaces (c :: r) = c :: r := by
        simp [dropSpaces, h]
      rw [hl, hd]
      simp [collapseAux, h]

theorem join_splitAcc (n : Nat) : ∀ s : List Char, s.length ≤ n →
    (joinSpaces (splitAcc [] s) = collapseAux (dropSpaces s) false) ∧
    (∀ a : List Char, a ≠ [] → joinSpaces (splitAcc a s) = a ++ collapseAux s false) := by
  induction n with
  | zero =>
    intro s hl
    have : s = [] := List.eq_nil_of_length_eq_zero (Nat.le_zero.mp hl)
    subst this
    refine ⟨by simp [splitAcc, dropSpaces, collapseAux, joinSpaces], ?_⟩
    intro a ha
    simp [splitAcc, ha, joinSpaces, collapseAux]
  | succ n ih =>
    intro s hl
    match s with
    | [] =>
      refine ⟨by simp [splitAcc, dropSpaces, collapseAux, joinSpaces], ?_⟩
      intro a ha
      simp [splitAcc, ha, joinSpaces, collapseAux]
    | c :: rest =>
      have hrest : rest.length ≤ n := by
        simp only [List.length_cons] at hl
        omega
      constructor
      · by_cases h : c = ' '
        · simp only [splitAcc, dropSpaces, h, if_true, if_pos rfl, List.nil_append]
          exact (ih rest hrest).1
        · simp only [splitAcc, dropSpaces, h, if_false, List.nil_append]
          rw [(ih rest hrest).2 [c] (by simp)]
          simp [collapseAux, h]
      · intro a ha
        by_cases h : c = ' '
        · subst h
          rw [show splitAcc a (' ' :: rest) = a :: splitAcc [] rest from by simp [splitAcc, ha]]
          rw [joinSpaces_cons]
          rw [show collapseAux (' ' :: rest) false = collapseAux rest true from by
            simp [collapseAux]]
          rw [collapseAux_true rest]
          rcases hd : dropSpaces rest with _ | ⟨d, rest2⟩
          · have h0 : splitAcc [] rest = [] := (splitAcc_nil_iff rest).mpr hd
            simp [h0]
          · have hne : splitAcc [] rest ≠ [] := by
              rw [ne_eq, splitAcc_nil_iff, hd]
              simp
            simp only [hne, if_false, hd, (ih rest hrest).1]
            simp
        · simp only [splitAcc, h, if_false]
          rw [(ih rest hrest).2 (a ++ [c]) (by simp)]
          simp [collapseAux, h]

/-- C6: for every input containing no quote and no escape characters,
tokenizing succeeds and re-joining the resulting tokens with single spaces
reproduces the input with runs of spaces collapsed and leading/trailing
spaces removed. -/
theorem C6_roundtrip_on_plain_input (s : List Char) (hs : noSpecials s) :
    ∃ ts, parse_args s = .ok ts ∧ joinSpaces ts = collapseChars s := by
  refine ⟨splitAcc [] s, parse_args_noSpecials s hs, ?_⟩
  have := (join_splitAcc s.length s (Nat.le_refl _)).1
  simpa [collapseChars] using this

/-- Witness for C6: the input `  ab  c ` tokenizes and re-joins to `ab c`. -/
theorem C6_roundtrip_witness :
    noSpecials "  ab  c ".data ∧
      ∃ ts, parse_args "  ab  c ".data = .ok ts ∧
        joinSpaces ts = collapseChars "  ab  c ".data :=
  ⟨by decide, C6_roundtrip_on_plain_input "  ab  c ".data (by decide)⟩

theorem pySplitAux_length_pos (s : List Char) : ∀ cur, 0 < (pySplitAux cur s).length := by
  induction s with
  | nil =>
    intro cur
    simp [pySplitAux]
  | cons c rest ih =>
    intro cur
    by_cases h : c = ' ' <;> simp [pySplitAux, h, ih]

/-- C7: the word source is invoked on a request iff the request's
space-split piece count differs from the stored previous count; after a
request the stored count equals that request's count (so across a request
sequence, invocation happens exactly when the count differs from the
previous request, and the sentinel -1 forces invocation on the first
request); for two consecutive requests with the same count the second
never invokes the source and reuses the cached candidate list. -/
theorem C7_completion_cache_policy (c : CommandCompleter) (r r1 r2 : CompletionRequest) :
    ((get_completions c r).2.1 = true ↔ ((pySplit r.line).length : Int) ≠ c.last_word_count) ∧
    ((get_completions c r).1.last_word_count = ((pySplit r.line).length : Int)) ∧
    ((get_completions initCompleter r).2.1 = true) ∧
    ((pySplit r1.line).length = (pySplit r2.line).length →
      (get_completions (get_completions c r1).1 r2).2.1 = false ∧
      (get_completions (get_completions c r1).1 r2).1.word_cache =
        (get_completions c r1).1.word_cache) := by
  refine ⟨?_, ?_, ?_, ?_⟩
  · by_cases h : ((pySplit r.line).length : Int) ≠ c.last_word_count <;>
      simp [get_completions, h]
  · by_cases h : ((pySplit r.line).length : Int) ≠ c.last_word_count
    · simp [get_completions, h]
    · push_neg at h
      simp [get_completions, h]
  · have hpos : 0 < (pySplit r.line).length := pySplitAux_length_pos r.line []
    have : ((pySplit r.line).length : Int) ≠ (-1 : Int) := by
      omega
    simp [get_completions, initCompleter, this]
  · intro hcount
    have h1 : (get_completions c r1).1.last_word_count = ((pySplit r1.line).length : Int) := by
      by_cases h : ((pySplit r1.line).length : Int) ≠ c.last_word_count
      · simp [get_completions, h]
      · push_neg at h
        simp [get_completions, h]
    set c1 := (get_completions c r1).1
    have h2 : ((pySplit r2.line).length : Int) = c1.last_word_count := by
      rw [h1]
      exact_mod_cast hcount.symm
    constructor <;> simp [get_completions, h2]

/-- Witness for C7: a concrete second request on a line with the same piece
count as the first does not invoke the word source and keeps the cache. -/
theorem C7_completion_cache_policy_witness :
    (pySplit "cd a".data).length = (pySplit "cd b".data).length ∧
      (get_completions (get_completions initCompleter ⟨"cd a".data, "a".data, ["dir one".data]⟩).1
          ⟨"cd b".data, "b".data, ["other".data]⟩).2.1 = false ∧
      (get_completions (get_completions initCompleter ⟨"cd a".data, "a".data, ["dir one".data]⟩).1
          ⟨"cd b".data, "b".data, ["other".data]⟩).1.word_cache =
        (get_completions initCompleter ⟨"cd a".data, "a".data, ["dir one".data]⟩).1.word_cache :=
  ⟨by decide,
    (C7_completion_cache_policy initCompleter ⟨"cd a".data, "a".data, ["dir one".data]⟩
      ⟨"cd a".data, "a".data, ["dir one".data]⟩ ⟨"cd b".data, "b".data, ["other".data]⟩).2.2.2
      (by decide)⟩

theorem charListLe_total (x : List Char) : ∀ y : List Char,
    charListLe x y = true ∨ charListLe y x = true := by
  induction x with
  | nil =>
    intro y
    left
    simp [charListLe]
  | cons a as ih =>
    intro y
    cases y with
    | nil =>
      right
      simp [charListLe]
    | cons b bs =>
      by_cases hab : a < b
      · left
        simp [charListLe, hab]
      · by_cases heq : a = b
        · subst heq
          rcases ih bs with h | h
          · left
            simp [charListLe, h]
          · right
            simp [charListLe, h]
        · have hba : b < a := lt_of_le_of_ne (le_of_not_lt hab) (fun hx => heq hx.symm)
          right
          simp [charListLe, hba]

theorem charListLe_trans : ∀ x y z : List Char,
    charListLe x y = true → charListLe y z = true → charListLe x z = true := by
  intro x
  induction x with
  | nil =>
    intro y z h1 h2
    simp [charListLe]
  | cons a as ih =>
    intro y z h1 h2
    cases y with
    | nil => simp [charListLe] at h1
    | cons b bs =>
      cases z with
      | nil => simp [charListLe] at h2
      | cons c cs =>
        simp only [charListLe] at h1 h2 ⊢
        by_cases hab : a < b
        · by_cases hbc : b < c
          · simp [lt_trans hab hbc]
          · by_cases hbc2 : b = c
            · subst hbc2
              simp [hab]
            · simp [hbc, hbc2] at h2
        · by_cases hab2 : a = b
          · subst hab2
            by_cases hac : a < c
            · simp [hac]
            · by_cases hac2 : a = c
              · subst hac2
                simp [lt_irrefl] at h1 h2 ⊢
                exact ih bs cs h1 h2
              · simp [hac, hac2] at h2
          · simp [hab, hab2] at h1

theorem entryKeyLe_total (a b : Entry × (Nat × String)) : entryKeyLe a b ∨ entryKeyLe b a := by
  unfold entryKeyLe keyLe
  rcases Nat.lt_trichotomy a.2.1 b.2.1 with h | h | h
  · exact Or.inl (Or.inl h)
  · rcases charListLe_total a.2.2.data b.2.2.data with h2 | h2
    · exact Or.inl (Or.inr ⟨h, h2⟩)
    · exact Or.inr (Or.inr ⟨h.symm, h2⟩)
  · exact Or.inr (Or.inl h)

theorem entryKeyLe_trans (a b c : Entry × (Nat × String))
    (hab : entryKeyLe a b) (hbc : entryKeyLe b c) : entryKeyLe a c := by
  unfold entryKeyLe keyLe at hab hbc ⊢
  rcases hab with h | ⟨he, hs⟩ <;> rcases hbc with h2 | ⟨he2, hs2⟩
  · exact Or.inl (lt_trans h h2)
  · exact Or.inl (he2 ▸ h)
  · exact Or.inl (he ▸ h2)
  · exact Or.inr ⟨he.trans he2, charListLe_trans _ _ _ hs hs2⟩

theorem decorate_eq_none (entries : List Entry) :
    decorate entries = none ↔ ∃ e ∈ entries, e.st_mode = none := by
  induction entries with
  | nil => simp [decorate]
  | cons e rest ih =>
    rcases hm : e.st_mode with _ | m
    · simp [decorate, hm]
    · simp [decorate, hm, ih]

/-- C8: the ls command displays the entries sorted by the composite key
(kind rank: directories 1, regular files 2, other 3; ties broken by
case-sensitive filename ascending): the rendered lines are exactly the
decorated entries rearranged into a permutation that is sorted under
`entryKeyLe`; in particular the listing [(dir, b), (file, a), (dir, a)]
prints dir a, dir b, file a in that order. -/
theorem C8_ls_sorted_by_composite_key (entries : List Entry)
    (dec : List (Entry × (Nat × String))) (h : decorate entries = some dec) :
    lsRun entries =
      .ok ((dec.insertionSort entryKeyLe).map (fun p => lsMarker p.1 ++ " " ++ p.1.filename)) ∧
    (dec.insertionSort entryKeyLe).Perm dec ∧
    List.Sorted entryKeyLe (dec.insertionSort entryKeyLe) ∧
    lsRun [⟨"b", some 16877⟩, ⟨"a", some 33188⟩, ⟨"a", some 16877⟩] =
      .ok ["📁 a", "📁 b", "📄 a"] := by
  haveI : IsTotal (Entry × (Nat × String)) entryKeyLe := ⟨entryKeyLe_total⟩
  haveI : IsTrans (Entry × (Nat × String)) entryKeyLe := ⟨entryKeyLe_trans⟩
  refine ⟨?_, List.perm_insertionSort entryKeyLe dec,
    List.sorted_insertionSort entryKeyLe dec, by decide⟩
  simp [lsRun, h]

/-- Witness for C8: a singleton listing decorates successfully and the
canonical three-entry example prints in the claimed order. -/
theorem C8_ls_sorted_by_composite_key_witness :
    decorate [⟨"x", some 16877⟩] = some [(⟨"x", some 16877⟩, (1, "x"))] ∧
    lsRun [⟨"b", some 16877⟩, ⟨"a", some 33188⟩, ⟨"a", some 16877⟩] =
      .ok ["📁 a", "📁 b", "📄 a"] :=
  ⟨by decide,
    (C8_ls_sorted_by_composite_key [⟨"x", some 16877⟩] [(⟨"x", some 16877⟩, (1, "x"))]
      (by decide)).2.2.2⟩

/-- C10: ls is total exactly when every entry carries a defined mode. The
marker substitutes 0 for a missing mode (yielding the unknown marker `?`),
but the sort key applies the mode tests to the raw value, so one entry with
an absent mode aborts the listing before any line is produced. -/
theorem C10_ls_requires_defined_modes (entries : List Entry) :
    ((∃ e ∈ entries, e.st_mode = none) → lsRun entries = .error ()) ∧
    ((∀ e ∈ entries, e.st_mode ≠ none) → ∃ lines, lsRun entries = .ok lines) ∧
    (∀ e : Entry, e.st_mode = none → lsMarker e = "?") := by
  refine ⟨?_, ?_, ?_⟩
  · intro hex
    have : decorate entries = none := (decorate_eq_none entries).mpr hex
    simp [lsRun, this]
  · intro hall
    have : decorate entries ≠ none := by
      rw [ne_eq, decorate_eq_none]
      push_neg
      exact hall
    rcases Option.ne_none_iff_exists.mp this with ⟨dec, hdec⟩
    refine ⟨(dec.insertionSort entryKeyLe).map (fun p => lsMarker p.1 ++ " " ++ p.1.filename), ?_⟩
    rw [lsRun, ← hdec]
  · intro e hm
    simp [lsMarker, hm, show S_ISDIR 0 = false from by decide,
      show S_ISREG 0 = false from by decide]

/-- Witness for C10: a listing with one mode-less entry errors before
printing, and that entry's marker (had it been printed) is `?`. -/
theorem C10_ls_requires_defined_modes_witness :
    lsRun [⟨"x", none⟩] = .error () ∧ lsMarker ⟨"x", none⟩ = "?" :=
  ⟨(C10_ls_requires_defined_modes [⟨"x", none⟩]).1 ⟨⟨"x", none⟩, by simp, rfl⟩,
    (C10_ls_requires_defined_modes [⟨"x", none⟩]).2.2 ⟨"x", none⟩ rfl⟩

theorem dispatchLine_no_close (st : ClientState) (raw : List Char) (cr : Option (List Char)) :
    Effect.closeInvoke ∉ dispatchEffects (dispatchLine st raw cr) := by
  unfold dispatchLine
  rcases hargs : dispatchArgs raw with e | args <;> simp only [hargs]
  · simp [dispatchEffects]
  · split_ifs with hq hls hcd hget
    · simp [dispatchEffects]
    · simp [dispatchEffects]
    · rcases args with _ | ⟨a, rest⟩
      · simp [dispatchEffects]
      · rcases cr with _ | msg <;> simp [dispatchEffects]
    · rcases args with _ | ⟨f, rest⟩
      · simp [dispatchEffects]
      · rcases rest with _ | ⟨s, rest2⟩
        · rcases hf : st.fname with _ | prev <;> simp [dispatchEffects, hf]
        · rcases rest2 with _ | ⟨t, rest3⟩ <;> simp [dispatchEffects]
    · simp [dispatchEffects]

/-- C3: whenever start_interactive leaves the RUNNING state through the
closed flag — set by a quit-family command, by an interrupt at the prompt,
or by an interrupt at any modelled point of the loop body — the run ends
with disposition `finished` and the session capability's close operation
appears exactly once in the effect trace. -/
theorem C3_session_close_runs_exactly_once (st : ClientState) (events : List LoopEvent)
    (out : List Effect) (h : start_interactive st events = (out, .finished)) :
    out.count .closeInvoke = 1 := by
  induction events generalizing st out with
  | nil =>
    simp only [start_interactive] at h
    by_cases hc : st.closed = true
    · rw [if_pos hc, Prod.mk.injEq] at h
      obtain ⟨h1, _⟩ := h
      subst h1
      decide
    · rw [if_neg hc, Prod.mk.injEq] at h
      exact Disposition.noConfusion h.2
  | cons ev rest ih =>
    simp only [start_interactive] at h
    by_cases hc : st.closed = true
    · rw [if_pos hc, Prod.mk.injEq] at h
      obtain ⟨h1, _⟩ := h
      subst h1
      decide
    · rw [if_neg hc] at h
      rcases ev with ⟨cwd, raw, cr⟩ | ⟨cwd⟩ | ⟨cwd, raw, cr, k⟩
      · rcases hd : dispatchLine { st with pwd := cwd.getD [] } raw cr with ⟨st3, effs⟩ | ⟨effs, e⟩
        · simp only [hd] at h
          rcases hrec : start_interactive st3 rest with ⟨more, d⟩
          rw [hrec] at h
          simp only [Prod.mk.injEq] at h
          obtain ⟨h1, h2⟩ := h
          subst h2
          subst h1
          have hih := ih st3 more (by rw [hrec])
          have hnc := dispatchLine_no_close { st with pwd := cwd.getD [] } raw cr
          rw [hd] at hnc
          simp only [dispatchEffects] at hnc
          rw [List.count_append, List.count_eq_zero.mpr hnc, hih]
        · simp only [hd, Prod.mk.injEq] at h
          exact Disposition.noConfusion h.2
      · rw [Prod.mk.injEq] at h
        obtain ⟨h1, _⟩ := h
        subst h1
        decide
      · rw [Prod.mk.injEq] at h
        obtain ⟨h1, _⟩ := h
        subst h1
        have hnc := dispatchLine_no_close { st with pwd := cwd.getD [] } raw cr
        have hnt : Effect.closeInvoke ∉
            (dispatchEffects (dispatchLine { st with pwd := cwd.getD [] } raw cr)).take k :=
          fun hm => hnc (List.mem_of_mem_take hm)
        rw [List.count_append, List.count_eq_zero.mpr hnt]
        decide

/-- Witness for C3: an interrupt at the very first prompt finishes the run
and the trace contains exactly one close. -/
theorem C3_session_close_runs_exactly_once_witness :
    ([Effect.closeInvoke] : List Effect).count .closeInvoke = 1 :=
  C3_session_close_runs_exactly_once initClient [.interruptAtPrompt none] [Effect.closeInvoke]
    (by decide)

/-- C1 (code bug): a one-argument `get c` does not save to `./c`. The
source line `fname, save_path = args[0], f'./{fname}'` evaluates the
f-string against the PREVIOUS value of `fname`: after an earlier
`get a b` set `fname` to `a`, the command `get c` downloads `c` to `./a`;
and on the very first one-argument get, `fname` is unbound and the body
raises NameError. -/
theorem C1_one_arg_get_save_path_is_stale :
    dispatchLine ⟨false, [], some "a".data⟩ "get c".data none =
      .ok ⟨false, [], some "c".data⟩ [.downloadInvoke "c".data "./a".data] ∧
    dispatchLine ⟨false, [], none⟩ "get c".data none = .raised [] .nameError ∧
    "./a".data ≠ "./c".data := by decide

/-- C2 (code bug): the loop's except clause names only KeyboardInterrupt,
so the ValueError a tokenizer failure raises propagates out of
start_interactive: on the line `get "a` nothing is printed, no command
runs, the loop does not reach the next iteration, and close never runs. -/
theorem C2_tokenizer_failure_is_uncaught :
    dispatchArgs "get \"a".data = .error (.unterminatedQuote 2) ∧
    start_interactive ⟨false, [], none⟩
        [.line none "get \"a".data none, .line none "ls".data none] =
      ([], .crashed (.valueError (.unterminatedQuote 2))) := by decide

/-- C9: dispatching a `cd` line never changes the client state (in
particular `_pwd` is byte-for-byte unchanged): with no argument no
directory-change request happens and nothing is printed; when the
capability's chdir fails with an IOError, _execute_safely catches it and
the error message is printed after the chdir request. -/
theorem C9_cd_failure_preserves_pwd (st : ClientState) (raw : List Char)
    (cr : Option (List Char)) (args : List (List Char))
    (hcmd : (pySplit raw).headD [] = "cd".data)
    (hargs : dispatchArgs raw = .ok args) :
    (∃ effs, dispatchLine st raw cr = .ok st effs) ∧
    (args = [] → dispatchLine st raw cr = .ok st []) ∧
    (∀ a rest msg, args = a :: rest → cr = some msg →
      dispatchLine st raw cr = .ok st [.chdirInvoke (st.pwd ++ '/' :: a), .printed msg]) := by
  have h1 : ¬((pySplit raw).headD [] = "q".data ∨ (pySplit raw).headD [] = "quit".data ∨
      (pySplit raw).headD [] = "exit".data) := by
    rw [hcmd]
    decide
  have h2 : ¬ (pySplit raw).headD [] = "ls".data := by
    rw [hcmd]
    decide
  have hdl : dispatchLine st raw cr =
      (match args with
       | [] => .ok st []
       | a :: _ =>
         match cr with
         | none => .ok st [.chdirInvoke (st.pwd ++ '/' :: a)]
         | some msg => .ok st [.chdirInvoke (st.pwd ++ '/' :: a), .printed msg]) := by
    unfold dispatchLine
    simp only [hargs]
    rw [if_neg h1, if_neg h2, if_pos hcmd]
    rcases args with _ | ⟨a, rest⟩
    · rfl
    · rcases cr with _ | msg <;> rfl
  refine ⟨?_, ?_, ?_⟩
  · rcases args with _ | ⟨a, rest⟩
    · exact ⟨[], by rw [hdl]⟩
    · rcases cr with _ | msg
      · exact ⟨_, by rw [hdl]⟩
      · exact ⟨_, by rw [hdl]⟩
  · intro ha
    subst ha
    rw [hdl]
  · intro a rest msg ha hcr
    subst ha
    subst hcr
    rw [hdl]

/-- Witness for C9: `cd x` against a failing chdir leaves the initial
client state untouched and prints the error after the request. -/
theorem C9_cd_failure_preserves_pwd_witness :
    (pySplit "cd x".data).headD [] = "cd".data ∧
    dispatchArgs "cd x".data = .ok ["x".data] ∧
    dispatchLine initClient "cd x".data (some "err".data) =
      .ok initClient [.chdirInvoke (initClient.pwd ++ '/' :: "x".data), .printed "err".data] :=
  ⟨by decide, by decide,
    (C9_cd_failure_preserves_pwd initClient "cd x".data (some "err".data) ["x".data]
      (by decide) (by decide)).2.2 "x".data [] "err".data rfl rfl⟩
